import Mathlib

/-!
Verification of `scripts/fetch.py`, the Claude Agent SDK documentation
fetcher.  The Python source is shallowly embedded: pure string processing is
translated to executable Lean functions on `List Char` / `String`, the
network and the filesystem are represented by explicit oracle parameters and
state values, and Python exceptions are represented by explicit result
constructors.  Python `str` operations (`strip`, `split`, `in`, slicing) are
re-implemented on code-point lists, matching CPython semantics on the ASCII
inputs the tool handles.
-/

namespace FetchPy

/-- Whitespace test used by Python `str.strip()` and the regex class `\s`
(ASCII range: space, tab, newline, carriage return, vertical tab, form
feed). -/
def pyIsSpace (c : Char) : Bool :=
  c = ' ' || c = '\t' || c = '\n' || c = '\r' || c = '\x0b' || c = '\x0c'

/-- Python `str.strip()` on a code-point list: drop whitespace from both
ends. -/
def trimChars (l : List Char) : List Char :=
  ((l.dropWhile pyIsSpace).reverse.dropWhile pyIsSpace).reverse

/-- Python `str.strip()` on `String`. -/
def pyStrip (s : String) : String := ⟨trimChars s.data⟩

/-- Drop a literal pattern from the front of a list if it is a prefix
(`None` when it is not). -/
def dropLit (lit s : List Char) : Option (List Char) :=
  if lit.isPrefixOf s then some (s.drop lit.length) else none

/-- Split a list at the first occurrence of a literal pattern:
`splitFirst pat s = some (b, a)` when `s = b ++ pat ++ a` and the shown
occurrence is the leftmost one. -/
def splitFirst (pat : List Char) : List Char → Option (List Char × List Char)
  | [] => if pat.isEmpty then some ([], []) else none
  | c :: rest =>
    if pat.isPrefixOf (c :: rest) then some ([], (c :: rest).drop pat.length)
    else
      match splitFirst pat rest with
      | some (b, a) => some (c :: b, a)
      | none => none

/-- Substring test on code-point lists (Python `pat in s`). -/
def hasSubList (pat : List Char) : List Char → Bool
  | [] => pat.isEmpty
  | c :: rest => pat.isPrefixOf (c :: rest) || hasSubList pat rest

/-- Python `pat in s` on `String`. -/
def strContains (s pat : String) : Bool := hasSubList pat.data s.data

/-- Python `str.startswith` on `String` (code-point prefix test). -/
def pyStartsWith (s pat : String) : Bool := pat.data.isPrefixOf s.data

/-- Python `str.endswith` on `String` (code-point suffix test). -/
def pyEndsWith (s pat : String) : Bool := pat.data.isSuffixOf s.data

/-- Python slicing `s[:-n]` for `n ≤ len s` (drop the last `n`
code points). -/
def dropRightS (s : String) (n : Nat) : String := ⟨s.data.take (s.data.length - n)⟩

/-- Python slicing `s[:n]` (first `n` code points). -/
def takeS (s : String) (n : Nat) : String := ⟨s.data.take n⟩

/-- Python `str.strip(ch)` for a single character: drop `ch` from both
ends. -/
def stripChar (ch : Char) (s : String) : String :=
  ⟨((s.data.dropWhile (· = ch)).reverse.dropWhile (· = ch)).reverse⟩

/-- Python `str.rstrip(ch)` for a single character. -/
def rstripChar (ch : Char) (s : String) : String :=
  ⟨(s.data.reverse.dropWhile (· = ch)).reverse⟩

/-- Python `str.lstrip(ch)` for a single character. -/
def lstripChar (ch : Char) (s : String) : String :=
  ⟨s.data.dropWhile (· = ch)⟩

/-- Python `str.split(sep)` for a one-character separator on code-point
lists, keeping empty pieces (CPython semantics: `"".split(c) = [""]`).
The accumulator holds the current (reversed) piece. -/
def splitCharGo (ch : Char) : List Char → List Char → List (List Char)
  | [], acc => [acc.reverse]
  | c :: rest, acc =>
    if c = ch then acc.reverse :: splitCharGo ch rest []
    else splitCharGo ch rest (c :: acc)

/-- Python `str.split(sep)` for a one-character separator. -/
def pySplitChar (ch : Char) (s : String) : List String :=
  (splitCharGo ch s.data []).map (fun l => (⟨l⟩ : String))

/-- Join with a one-character separator (inverse of `pySplitChar`). -/
def joinChar (ch : Char) (ls : List String) : String :=
  ⟨List.intercalate [ch] (ls.map String.data)⟩

/-- Python `str.splitlines()` restricted to the line endings that occur in
the fetched documents: `\n`, `\r\n` and `\r`.  Unlike `split`, a trailing
line terminator produces no final empty line. -/
def pySplitLines (s : String) : List String :=
  (go s.data []).map (fun l => (⟨l.reverse⟩ : String))
where
  /-- Accumulator-passing scan; `acc` holds the current (reversed) line. -/
  go : List Char → List Char → List (List Char)
    | [], [] => []
    | [], acc => [acc]
    | '\r' :: '\n' :: rest, acc => acc :: go rest []
    | '\n' :: rest, acc => acc :: go rest []
    | '\r' :: rest, acc => acc :: go rest []
    | c :: rest, acc => go rest (c :: acc)

/-- Executable lexicographic order on code-point lists; this is exactly the
order Python `sorted` uses for `str` values (code-point comparison). -/
def lexLe : List Char → List Char → Bool
  | [], _ => true
  | _ :: _, [] => false
  | a :: as, b :: bs =>
    if a.toNat < b.toNat then true
    else if b.toNat < a.toNat then false
    else lexLe as bs

/-- Python string order as a decidable proposition on `String`. -/
def pyLe (a b : String) : Prop := lexLe a.data b.data = true

instance : DecidableRel pyLe := fun a b => by unfold pyLe; infer_instance

/-- Model of Python `sorted(list(set(xs)))` for string lists: remove
duplicates, then sort by code-point order.  Python's sort output is the
unique duplicate-free sorted arrangement of the set, which `insertionSort`
over `pyLe` produces. -/
def pySortedSet (xs : List String) : List String :=
  List.insertionSort pyLe xs.dedup

/-! Constants from the top of `fetch.py`. -/

def LLMS_URLS : List String :=
  [ "https://platform.claude.com/docs/llms.txt",
    "https://code.claude.com/docs/llms.txt",
    "https://docs.anthropic.com/docs/llms.txt",
    "https://docs.anthropic.com/llms.txt" ]

def SITEMAP_URLS : List String :=
  [ "https://platform.claude.com/docs/sitemap.xml",
    "https://code.claude.com/docs/sitemap.xml",
    "https://docs.anthropic.com/sitemap.xml" ]

def AGENT_SDK_PATH_MARKERS : List String :=
  [ "/docs/en/agent-sdk/",
    "/en/docs/agent-sdk/",
    "/agent-sdk/" ]

def MANIFEST_FILE : String := "docs_manifest.json"

def SKILL_FILE : String := "SKILL.md"

/-- Python set `CUSTOM_FILES`, modelled as a list (membership is all the
code uses). -/
def CUSTOM_FILES : List String := ["openrouter-support.md"]

def MAX_RETRIES : Nat := 3

def RETRY_DELAY : Nat := 2

def MAX_RETRY_DELAY : Nat := 30

/-!  Model of `urllib.parse.urlparse`, used by `url_to_safe_filename` (for
`.path`) and `discover_pages_from_llms` (for `.scheme` / `.netloc`). -/

/-- Scheme component characters accepted by `urlparse` after the leading
letter. -/
def schemeChar (c : Char) : Bool :=
  c.isAlphanum || c = '+' || c = '-' || c = '.'

/-- Components of a parsed URL (only the three fields the tool reads). -/
structure UrlParts where
  scheme : String
  netloc : String
  path : String
deriving DecidableEq

/-- Modelled from `urllib.parse.urlparse` (Python standard library, not
part of this repository): strip the fragment, split a syntactically valid
scheme at the first `:`, read the authority after `//` up to the next
`/` or `?`, and end the path at the query.  Parameter and case handling of
CPython are simplified; every theorem below that quantifies over all inputs
holds for an arbitrary result of this function. -/
def urlparse (u : String) : UrlParts :=
  let noFrag : List Char := match splitFirst ['#'] u.data with
    | some (b, _) => b
    | none => u.data
  let schemeRest : List Char × List Char := match splitFirst [':'] noFrag with
    | some (b, a) =>
      match b with
      | [] => ([], noFrag)
      | c :: cs => if c.isAlpha && cs.all schemeChar then (b, a) else ([], noFrag)
    | none => ([], noFrag)
  match schemeRest.2 with
  | '/' :: '/' :: r =>
    let netloc := r.takeWhile (fun c => !(c = '/' || c = '?'))
    let after := r.dropWhile (fun c => !(c = '/' || c = '?'))
    { scheme := ⟨schemeRest.1⟩, netloc := ⟨netloc⟩,
      path := ⟨after.takeWhile (· ≠ '?')⟩ }
  | r =>
    { scheme := ⟨schemeRest.1⟩, netloc := "",
      path := ⟨r.takeWhile (· ≠ '?')⟩ }

/-- Python `is_agent_sdk_url`: does the URL contain one of the Agent SDK
path markers? -/
def is_agent_sdk_url (url : String) : Bool :=
  AGENT_SDK_PATH_MARKERS.any (fun m => strContains url m)

/-!  `url_to_safe_filename` (fetch.py lines 114-144). -/

/-- Replace every `/` by `__` (Python `slug.replace('/', '__')`). -/
def replaceSlash : List Char → List Char
  | [] => []
  | c :: r => if c = '/' then '_' :: '_' :: replaceSlash r else c :: replaceSlash r

/-- Text after the first occurrence of the first matching marker, or `""`
when no marker occurs (Python leaves `slug = None`; `None` and `""` are
both falsy at the `if not slug` test, so `""` models both). -/
def markerSlug (path : String) : String :=
  match AGENT_SDK_PATH_MARKERS.findSome?
      (fun m => if strContains path m then
                  some ((splitFirst m.data path.data).elim "" (fun p => (⟨p.2⟩ : String)))
                else none) with
  | some s => s
  | none => ""

/-- Python `path.strip('/').split('/')[-1]` (the split list is never
empty). -/
def lastComp (s : String) : String :=
  ((pySplitChar '/' (stripChar '/' s)).getLastD "")

/-- Slug computation of `url_to_safe_filename` after the extension has been
stripped: marker split, fallback to the last path component, strip `/`,
fall back to `"index"` when empty. -/
def pathSlug (path : String) : String :=
  let s0 := markerSlug path
  let s1 := if s0 = "" then lastComp path else s0
  let s2 := if s1 = "" then "index" else stripChar '/' s1
  if s2 = "" then "index" else s2

/-- First step of `url_to_safe_filename`: take the URL path when the input
contains `//`, otherwise the input itself. -/
def pathOf (url_or_path : String) : String :=
  if strContains url_or_path "//" then (urlparse url_or_path).path else url_or_path

/-- Second step of `url_to_safe_filename`: drop trailing slashes, then one
`.md` or `.html` extension. -/
def extStrip (path : String) : String :=
  let p := rstripChar '/' path
  if pyEndsWith p ".md" then dropRightS p 3
  else if pyEndsWith p ".html" then dropRightS p 5 else p

/-- Last step of `url_to_safe_filename`: replace `/` by `__` and append
`.md` unless already present. -/
def safeName (slug : String) : String :=
  let safe : String := ⟨replaceSlash slug.data⟩
  if pyEndsWith safe ".md" then safe else safe ++ ".md"

/-- Python `url_to_safe_filename`: convert a URL or path to a safe
filename. -/
def url_to_safe_filename (url_or_path : String) : String :=
  safeName (pathSlug (extStrip (pathOf url_or_path)))

/-!  `normalize_doc_url` (fetch.py lines 147-163). -/

/-- Python `normalize_doc_url`: normalize a doc URL to
`(original_url, markdown_url)`. -/
def normalize_doc_url (url : String) : String × String :=
  let url := pyStrip url
  let url := if pyEndsWith url "/" then dropRightS url 1 else url
  if pyEndsWith url ".md" then (dropRightS url 3, url)
  else if pyEndsWith url ".html" then (dropRightS url 5, dropRightS url 5 ++ ".md")
  else (url, url ++ ".md")

/-!  `clean_mdx_content` (fetch.py lines 326-442).  Each `re.sub` call is
embedded as an executable scanner with the same semantics on its pattern:
lazy groups stop at the first occurrence of the following literal,
greedy character classes take a maximal run (no following alternative can
match shorter runs for these patterns), and rewriting continues after the
end of each replaced match, as `re.sub` does. -/

/-- Word character test for the regex class `\w` (ASCII range; the fetched
documents are ASCII). -/
def isWordChar (c : Char) : Bool := c.isAlphanum || c = '_'

/-- Test for `re.match(r'^export\s+const\s+\w+\s*=', line)`. -/
def lineIsExportStart (l : List Char) : Bool :=
  match dropLit "export".data l with
  | none => false
  | some r =>
    match r with
    | [] => false
    | c :: _ =>
      if pyIsSpace c then
        match dropLit "const".data (r.dropWhile pyIsSpace) with
        | none => false
        | some r2 =>
          match r2 with
          | [] => false
          | c2 :: _ =>
            if pyIsSpace c2 then
              let r3 := r2.dropWhile pyIsSpace
              let w := r3.takeWhile isWordChar
              if w.isEmpty then false
              else
                match (r3.drop w.length).dropWhile pyIsSpace with
                | '=' :: _ => true
                | _ => false
            else false
      else false

/-- Test for `re.match(r'^\};\s*$', line)` (a closing brace-semicolon line
with only trailing whitespace). -/
def lineIsCloseBrace (l : List Char) : Bool :=
  match dropLit "\x7d;".data l with
  | none => false
  | some r => r.all pyIsSpace

/-- Skip lines up to and including the first `\x7d;` line (the inner
`while` of `remove_export_components`). -/
def dropExportBlock : List (List Char) → List (List Char)
  | [] => []
  | l :: ls => if lineIsCloseBrace l then ls else dropExportBlock ls

/-- The outer loop of `remove_export_components` over the line list. -/
def removeExportLines : Nat → List (List Char) → List (List Char)
  | 0, ls => ls
  | fuel + 1, ls =>
    match ls with
    | [] => []
    | l :: rest =>
      if lineIsExportStart l then removeExportLines fuel (dropExportBlock rest)
      else l :: removeExportLines fuel rest

/-- Python `remove_export_components`: drop `export const ... = ... \x7d;`
blocks, line by line. -/
def remove_export_components (s : List Char) : List Char :=
  let lines := splitCharGo '\n' s []
  List.intercalate "\n".data (removeExportLines lines.length lines)

/-- Generic engine for `re.sub(r'<O>\s*(.*?)\s*</C>', ..., flags=DOTALL)`:
repeatedly locate the leftmost open tag, the first close tag after it, and
replace the whole span by `f` of the whitespace-trimmed body; when the
close tag is missing there is no match at all (a close after a later open
would also be after the first open). -/
def subBlockGo (openT closeT : List Char) (f : List Char → List Char) :
    Nat → List Char → List Char
  | 0, s => s
  | fuel + 1, s =>
    match splitFirst openT s with
    | none => s
    | some (b1, r1) =>
      match splitFirst closeT r1 with
      | none => s
      | some (body, r2) =>
        b1 ++ f (trimChars body) ++ subBlockGo openT closeT f fuel r2

/-- Wrapper supplying sufficient fuel (each replacement consumes at least
the two tags). -/
def subBlock (openT closeT : List Char) (f : List Char → List Char)
    (s : List Char) : List Char :=
  subBlockGo openT closeT f s.length s

/-- Generic `re.sub` engine for patterns matched by a prefix matcher `m`:
at each position try the matcher; on a match emit the replacement and
continue after the matched span, otherwise keep the character.  Every
matcher used below consumes at least one character. -/
def replaceMatches (m : List Char → Option (List Char × List Char)) :
    Nat → List Char → List Char
  | 0, s => s
  | _ + 1, [] => []
  | fuel + 1, c :: rest =>
    match m (c :: rest) with
    | some (rep, r) => rep ++ replaceMatches m fuel r
    | none => c :: replaceMatches m fuel rest

/-- Scan `.*?>` without DOTALL: the remainder after the first `>` on the
current line (`.` does not match a newline). -/
def scanToGt : List Char → Option (List Char)
  | [] => none
  | '>' :: r => some r
  | '\n' :: _ => none
  | _ :: r => scanToGt r

/-- Prefix matcher for `</?NAME.*?>` (used with `Tabs`, `CodeGroup`,
`CardGroup`; no name starts with `/`, so consuming an optional `/` first
is exact). -/
def matchTagsLike (name : List Char) (s : List Char) : Option (List Char) :=
  match s with
  | '<' :: r =>
    let r1 := match r with
      | '/' :: rr => rr
      | _ => r
    match dropLit name r1 with
    | none => none
    | some rest => scanToGt rest
  | _ => none

/-- Removal matcher built from `matchTagsLike`. -/
def matchTagsRemove (name : List Char) (s : List Char) :
    Option (List Char × List Char) :=
  (matchTagsLike name s).map (fun r => (([] : List Char), r))

/-- Removal matcher for a literal pattern (used for `</Tab>`). -/
def matchLit (lit : List Char) (s : List Char) :
    Option (List Char × List Char) :=
  (dropLit lit s).map (fun r => (([] : List Char), r))

/-- Prefix matcher for `<Tab\s+title="([^"]+)">`, replaced by
`\n#### TITLE\n`. -/
def matchTabTitle (s : List Char) : Option (List Char × List Char) :=
  match dropLit "<Tab".data s with
  | none => none
  | some r =>
    match r with
    | [] => none
    | c :: _ =>
      if pyIsSpace c then
        match dropLit "title=\"".data (r.dropWhile pyIsSpace) with
        | none => none
        | some r2 =>
          let t := r2.takeWhile (fun ch => ch ≠ '"')
          if t.isEmpty then none
          else
            match r2.drop t.length with
            | '"' :: '>' :: rest =>
              some ("\n#### ".data ++ t ++ "\n".data, rest)
            | _ => none
      else none

/-- Python `convert_card`: card title, href and stripped body lines become
a bulleted list (the `href` group `[^"]+` is never empty, so its line is
always emitted). -/
def convertCard (title href body : List Char) : List Char :=
  let headParts : List (List Char) :=
    ["- **".data ++ title ++ "**".data, "  - ".data ++ href]
  let bodyParts : List (List Char) :=
    if body.isEmpty then []
    else (splitCharGo '\n' body []).map (fun l => "  - ".data ++ trimChars l)
  List.intercalate "\n".data (headParts ++ bodyParts)

/-- Prefix matcher for
`<Card\s+title="([^"]+)"\s+icon="[^"]*"\s+href="([^"]+)">\s*(.*?)\s*</Card>`
(DOTALL), replaced by `convertCard`. -/
def matchCard (s : List Char) : Option (List Char × List Char) :=
  match dropLit "<Card".data s with
  | none => none
  | some r =>
    match r with
    | [] => none
    | c :: _ =>
      if ¬ pyIsSpace c then none
      else
        match dropLit "title=\"".data (r.dropWhile pyIsSpace) with
        | none => none
        | some r2 =>
          let t := r2.takeWhile (fun ch => ch ≠ '"')
          if t.isEmpty then none
          else
            match r2.drop t.length with
            | '"' :: r3 =>
              match r3 with
              | [] => none
              | c3 :: _ =>
                if ¬ pyIsSpace c3 then none
                else
                  match dropLit "icon=\"".data (r3.dropWhile pyIsSpace) with
                  | none => none
                  | some r4 =>
                    let ic := r4.takeWhile (fun ch => ch ≠ '"')
                    match r4.drop ic.length with
                    | '"' :: r5 =>
                      match r5 with
                      | [] => none
                      | c5 :: _ =>
                        if ¬ pyIsSpace c5 then none
                        else
                          match dropLit "href=\"".data (r5.dropWhile pyIsSpace) with
                          | none => none
                          | some r6 =>
                            let h := r6.takeWhile (fun ch => ch ≠ '"')
                            if h.isEmpty then none
                            else
                              match r6.drop h.length with
                              | '"' :: '>' :: r7 =>
                                match splitFirst "</Card>".data r7 with
                                | none => none
                                | some (bodyRaw, rest) =>
                                  some (convertCard t h (trimChars bodyRaw), rest)
                              | _ => none
                    | _ => none
            | _ => none

/-- Prefix matcher for one `<Step title="([^"]+)">\s*(.*?)\s*</Step>`
(DOTALL) inside a Steps block; returns title, trimmed body, remainder. -/
def matchStep (s : List Char) : Option (List Char × List Char × List Char) :=
  match dropLit "<Step".data s with
  | none => none
  | some r =>
    match r with
    | [] => none
    | c :: _ =>
      if pyIsSpace c then
        match dropLit "title=\"".data (r.dropWhile pyIsSpace) with
        | none => none
        | some r2 =>
          let t := r2.takeWhile (fun ch => ch ≠ '"')
          if t.isEmpty then none
          else
            match r2.drop t.length with
            | '"' :: '>' :: rest =>
              match splitFirst "</Step>".data rest with
              | none => none
              | some (bodyRaw, rest2) => some (t, trimChars bodyRaw, rest2)
            | _ => none
      else none

/-- Python `re.findall` of the Step pattern over the Steps body. -/
def findStepsGo : Nat → List Char → List (List Char × List Char)
  | 0, _ => []
  | _ + 1, [] => []
  | fuel + 1, c :: rest =>
    match matchStep (c :: rest) with
    | some (t, b, r) => (t, b) :: findStepsGo fuel r
    | none => findStepsGo fuel rest

/-- One numbered step of `convert_steps`: heading line, body lines
indented by three spaces, then a blank entry. -/
def stepLines (idx : Nat) (t b : List Char) : List (List Char) :=
  ((Nat.repr idx).data ++ ". **".data ++ t ++ "**".data) ::
    ((splitCharGo '\n' b []).map (fun l => "   ".data ++ l)) ++ [[]]

/-- Number the steps starting from 1. -/
def numberSteps (idx : Nat) : List (List Char × List Char) → List (List Char)
  | [] => []
  | (t, b) :: rest => stepLines idx t b ++ numberSteps (idx + 1) rest

/-- Python `convert_steps`: a Steps body with no Step blocks becomes the
empty string, otherwise a numbered list. -/
def convert_steps (inner : List Char) : List Char :=
  let steps := findStepsGo inner.length inner
  if steps.isEmpty then []
  else List.intercalate "\n".data (numberSteps 1 steps)

/-- Prefix matcher for the self-closing JSX pattern
`<[A-Z][a-zA-Z]*(?:\s+[^>]*)?\s*/>`: after the capitalised name, the match
runs to the first `>`, which must be preceded by `/`, and the run between
name and `/` must be empty or start with whitespace (otherwise neither the
optional group nor `\s*` can consume it). -/
def matchSelfClosing (s : List Char) : Option (List Char) :=
  match s with
  | '<' :: c :: r =>
    if c.isUpper then
      let name := r.takeWhile (fun ch => ch.isAlpha)
      let rem := r.drop name.length
      let alpha := rem.takeWhile (fun ch => ch ≠ '>')
      match rem.drop alpha.length with
      | '>' :: rest =>
        match alpha.getLast? with
        | some '/' =>
          let core := alpha.dropLast
          if core.isEmpty then some rest
          else if pyIsSpace (core.headD 'x') then some rest else none
        | _ => none
      | _ => none
    else none
  | _ => none

/-- Test for `re.sub(r'^import\s+.*?[QUOTE];?\s*$', ...)` hitting a line:
after `import` and at least one whitespace, the line (with trailing
whitespace and an optional `;` removed) must end in a single or double
quote. -/
def lineIsImport (l : List Char) : Bool :=
  match dropLit "import".data l with
  | none => false
  | some r =>
    match r with
    | [] => false
    | c :: _ =>
      if pyIsSpace c then
        let s1 := (r.reverse.dropWhile pyIsSpace).reverse
        let s2 := match s1.getLast? with
          | some ';' => s1.dropLast
          | _ => s1
        match s2.getLast? with
        | some '"' => true
        | some q => q = Char.ofNat 39
        | none => false
      else false

/-- Whitespace-only line test (a blank line, or one of spaces and tabs). -/
def wsOnly (l : List Char) : Bool := l.all pyIsSpace

/-- The import-line pass over the newline-split pieces.  Under
`re.MULTILINE` a match starts at a line beginning; the line itself must
carry the quote (the `$` can only sit at a line boundary, which is what
`lineIsImport` tests).  The trailing `\s*` is greedy and `\s` matches
newlines, so the match also swallows every directly following
whitespace-only line, ending just before the last newline of that
whitespace run — or at the end of the string, consuming it entirely.
On the piece list both cases come to the same thing: the import piece and
the following whitespace-only pieces are replaced by a single empty
piece. -/
def importPassGo : Nat → List (List Char) → List (List Char)
  | 0, ls => ls
  | _ + 1, [] => []
  | fuel + 1, l :: rest =>
    if lineIsImport l then
      [] :: importPassGo fuel (rest.dropWhile wsOnly)
    else l :: importPassGo fuel rest

/-- Python `re.sub` of the import-line pattern with `re.MULTILINE`. -/
def importPass (s : List Char) : List Char :=
  let pieces := splitCharGo '\n' s []
  List.intercalate "\n".data (importPassGo pieces.length pieces)

/-- Python `re.sub(r'\n{4,}', chr(10)*3, ...)`: collapse every run of four
or more newlines to exactly three. -/
def collapseGo : Nat → List Char → List Char
  | 0, s => s
  | fuel + 1, s =>
    match s with
    | '\n' :: '\n' :: '\n' :: '\n' :: rest =>
      '\n' :: '\n' :: '\n' :: collapseGo fuel (rest.dropWhile (fun ch => ch = '\n'))
    | c :: rest => c :: collapseGo fuel rest
    | [] => []

/-- The `<Warning>` substitution pass. -/
def warningPass : List Char → List Char :=
  subBlock "<Warning>".data "</Warning>".data
    (fun b => "> **Warning:** ".data ++ b)

/-- The `<Note>` substitution pass. -/
def notePass : List Char → List Char :=
  subBlock "<Note>".data "</Note>".data (fun b => "> **Note:** ".data ++ b)

/-- The `<Tip>` substitution pass. -/
def tipPass : List Char → List Char :=
  subBlock "<Tip>".data "</Tip>".data (fun b => "> **Tip:** ".data ++ b)

/-- Python `clean_mdx_content`: the full substitution pipeline, in source
order, ending with `str.strip()`. -/
def clean_mdx_content (content : String) : String :=
  let l0 := content.data
  let l1 := remove_export_components l0
  let l2 := warningPass l1
  let l3 := notePass l2
  let l4 := tipPass l3
  let l5 := replaceMatches (matchTagsRemove "Tabs".data) l4.length l4
  let l6 := replaceMatches matchTabTitle l5.length l5
  let l7 := replaceMatches (matchLit "</Tab>".data) l6.length l6
  let l8 := replaceMatches (matchTagsRemove "CodeGroup".data) l7.length l7
  let l9 := replaceMatches (matchTagsRemove "CardGroup".data) l8.length l8
  let l10 := replaceMatches matchCard l9.length l9
  let l11 := subBlock "<Steps>".data "</Steps>".data convert_steps l10
  let l12 := replaceMatches
    (fun s => (matchSelfClosing s).map (fun r => (([] : List Char), r)))
    l11.length l11
  let l13 := importPass l12
  let l14 := collapseGo l13.length l13
  ⟨trimChars l14⟩

/-!  `validate_markdown_content` (fetch.py lines 445-464). -/

/-- The markdown indicator strings checked by `validate_markdown_content`. -/
def markdown_indicators : List String :=
  ["# ", "## ", "### ", "```", "- ", "* ", "1. ", "[", "**", "_", "> "]

/-- One line of the content counts when some indicator starts the stripped
line or occurs anywhere in the raw line (the Python inner loop `break`s
after the first hit, so each line counts at most once). -/
def lineHasIndicator (line : String) : Bool :=
  markdown_indicators.any
    (fun ind => pyStartsWith (pyStrip line) ind || strContains line ind)

/-- Number of indicator-bearing lines among the first 50 lines. -/
def indicatorCount (content : String) : Nat :=
  ((pySplitChar '\n' content).take 50).countP (fun l => lineHasIndicator l)

/-- Python `validate_markdown_content`: raise `ValueError` (modelled as
`Except.error`) for HTML, too-short, or indicator-poor content, otherwise
return normally. -/
def validate_markdown_content (content : String) : Except String Unit :=
  if content = "" ∨ pyStartsWith content "<!DOCTYPE" = true ∨
      strContains (takeS content 100) "<html" = true then
    Except.error "Received HTML instead of markdown"
  else if (pyStrip content).data.length < 50 then
    Except.error "Content too short"
  else if indicatorCount content < 3 then
    Except.error "Content does not appear to be markdown"
  else Except.ok ()

/-!  `validate_skill_md` (fetch.py lines 548-559) and
`cleanup_old_files` (fetch.py lines 520-533). -/

/-- Result record of `validate_skill_md`. -/
structure SkillValidation where
  orphaned : List String
  unreferenced : List String
  custom : List String

/-- Python `validate_skill_md`.  The `referenced` argument models the set
returned by `get_skill_md_references()` (the files named in `SKILL.md`,
read from disk by the Python code); `fetched` models the set of fetched
files.  Python set differences and intersections become list filters; the
final `sorted(list(...))` becomes `pySortedSet`. -/
def validate_skill_md (referenced fetched : List String) : SkillValidation :=
  { orphaned := pySortedSet (referenced.filter
      (fun f => decide (f ∉ fetched ∧ f ≠ MANIFEST_FILE ∧ f ∉ CUSTOM_FILES))),
    unreferenced := pySortedSet (fetched.filter
      (fun f => decide (f ∉ referenced ∧ f ≠ MANIFEST_FILE))),
    custom := pySortedSet (referenced.filter (fun f => decide (f ∈ CUSTOM_FILES))) }

/-!  URL discovery (fetch.py lines 171-323).  The network is an oracle:
`resp url = some (status, text)` models a completed `session.get`, `none`
models a raised exception; for sitemaps, `sresp url = some urls` models a
completed `fetch_sitemap_urls` call (the XML walk is network I/O), `none`
models any exception, including `raise_for_status`. -/

/-- One line of `parse_llms_txt`: strip, skip blanks and `#` comments,
strip a leading `-` bullet, resolve a leading `/` against the base URL,
keep the line when it is an `http` URL containing an Agent SDK marker. -/
def processLlmsLine (base_url line : String) : Option String :=
  let l := pyStrip line
  if l = "" then none
  else if pyStartsWith l "#" then none
  else
    let l2 := if pyStartsWith l "-" then pyStrip (lstripChar '-' l) else l
    let l3 := if pyStartsWith l2 "/" then base_url ++ l2 else l2
    if pyStartsWith l3 "http" && is_agent_sdk_url l3 then some l3 else none

/-- Python `parse_llms_txt`: parse llms.txt and return the filtered Agent
SDK URLs. -/
def parse_llms_txt (text base_url : String) : List String :=
  (pySplitLines text).filterMap (processLlmsLine base_url)

/-- Candidate llms.txt URLs: the environment override (when set and
non-empty, Python truthiness) followed by the static list. -/
def llmsCandidates : Option String → List String
  | some u => if u = "" then LLMS_URLS else u :: LLMS_URLS
  | none => LLMS_URLS

/-- Candidate sitemap URLs, analogous to `llmsCandidates`. -/
def sitemapCandidates : Option String → List String
  | some u => if u = "" then SITEMAP_URLS else u :: SITEMAP_URLS
  | none => SITEMAP_URLS

/-- Loop body of `discover_pages_from_llms`: try each candidate URL; on a
200 response whose parse yields URLs, return them sorted and
deduplicated; on any failure continue with the next candidate. -/
def llmsGo (resp : String → Option (Nat × String)) : List String → List String
  | [] => []
  | u :: rest =>
    if u = "" then llmsGo resp rest
    else match resp u with
      | none => llmsGo resp rest
      | some (status, text) =>
        if status ≠ 200 then llmsGo resp rest
        else
          let base := (urlparse u).scheme ++ "://" ++ (urlparse u).netloc
          let urls := parse_llms_txt text base
          if urls.isEmpty then llmsGo resp rest else pySortedSet urls

/-- Python `discover_pages_from_llms`. -/
def discover_pages_from_llms (resp : String → Option (Nat × String))
    (env : Option String) : List String :=
  llmsGo resp (llmsCandidates env)

/-- Loop body of `discover_pages_from_sitemap`: fetch all sitemap URLs,
keep the Agent SDK ones, return them sorted and deduplicated when
non-empty. -/
def sitemapGo (sresp : String → Option (List String)) : List String → List String
  | [] => []
  | u :: rest =>
    if u = "" then sitemapGo sresp rest
    else match sresp u with
      | none => sitemapGo sresp rest
      | some urls =>
        if urls.isEmpty then sitemapGo sresp rest
        else
          let agent := urls.filter is_agent_sdk_url
          if agent.isEmpty then sitemapGo sresp rest else pySortedSet agent

/-- Python `discover_pages_from_sitemap`. -/
def discover_pages_from_sitemap (sresp : String → Option (List String))
    (env : Option String) : List String :=
  sitemapGo sresp (sitemapCandidates env)

/-- Python `get_fallback_pages`: static list of essential Agent SDK
pages. -/
def get_fallback_pages : List String :=
  [ "https://platform.claude.com/docs/en/agent-sdk/overview",
    "https://platform.claude.com/docs/en/agent-sdk/quickstart",
    "https://platform.claude.com/docs/en/agent-sdk/python",
    "https://platform.claude.com/docs/en/agent-sdk/typescript",
    "https://platform.claude.com/docs/en/agent-sdk/permissions",
    "https://platform.claude.com/docs/en/agent-sdk/settings",
    "https://platform.claude.com/docs/en/agent-sdk/sessions",
    "https://platform.claude.com/docs/en/agent-sdk/streaming-vs-single-mode",
    "https://platform.claude.com/docs/en/agent-sdk/structured-outputs",
    "https://platform.claude.com/docs/en/agent-sdk/mcp",
    "https://platform.claude.com/docs/en/agent-sdk/custom-tools",
    "https://platform.claude.com/docs/en/agent-sdk/hooks",
    "https://platform.claude.com/docs/en/agent-sdk/subagents",
    "https://platform.claude.com/docs/en/agent-sdk/skills",
    "https://platform.claude.com/docs/en/agent-sdk/slash-commands",
    "https://platform.claude.com/docs/en/agent-sdk/plugins",
    "https://platform.claude.com/docs/en/agent-sdk/todo-tracking",
    "https://platform.claude.com/docs/en/agent-sdk/cost-tracking",
    "https://platform.claude.com/docs/en/agent-sdk/hosting",
    "https://platform.claude.com/docs/en/agent-sdk/secure-deployment",
    "https://platform.claude.com/docs/en/agent-sdk/modifying-system-prompts",
    "https://platform.claude.com/docs/en/agent-sdk/migration-guide" ]

/-- Python `discover_doc_urls`: llms.txt first, then sitemap, then the
static fallback. -/
def discover_doc_urls (resp : String → Option (Nat × String))
    (sresp : String → Option (List String)) (envL envS : Option String) :
    List String :=
  let urls := discover_pages_from_llms resp envL
  if urls.isEmpty then
    let urls2 := discover_pages_from_sitemap sresp envS
    if urls2.isEmpty then get_fallback_pages else urls2
  else urls

/-- Network oracle for the C3 witness: only the first llms.txt candidate
answers, with one Agent SDK bullet line. -/
def llmsRespW : String → Option (Nat × String) := fun u =>
  if u = "https://platform.claude.com/docs/llms.txt" then
    some (200, "# docs\n- /docs/en/agent-sdk/overview\n")
  else none

/-- Sitemap oracle for the C3 witness: every fetch raises. -/
def sitemapRespW : String → Option (List String) := fun _ => none

/-- Filesystem model: maps a filename in the references directory to the
file content when the file exists. -/
abbrev FS := String → Option String

/-- Write (create or overwrite) a file. -/
def fsWrite (fs : FS) (f content : String) : FS :=
  fun g => if g = f then some content else fs g

/-- Delete a file (Python `Path.unlink`). -/
def fsDelete (fs : FS) (f : String) : FS :=
  fun g => if g = f then none else fs g

/-- One iteration of the `cleanup_old_files` loop: skip protected files,
unlink the file when it exists. -/
def cleanupStep (acc : FS) (f : String) : FS :=
  if f = MANIFEST_FILE ∨ f ∈ CUSTOM_FILES then acc
  else match acc f with
    | none => acc
    | some _ => fsDelete acc f

/-- Python `cleanup_old_files`: delete the files named in the previous
manifest but absent from the current fetched set, skipping the manifest
file and the custom files, and only touching files that exist. -/
def cleanup_old_files (current prevFiles : List String) (fs : FS) : FS :=
  (prevFiles.filter (fun f => decide (f ∉ current))).foldl cleanupStep fs

/-!  `fetch_markdown_url` (fetch.py lines 467-508).  One loop iteration is
driven by an oracle giving the outcome of `session.get` for each attempt
index: a 429 response (with the parsed Retry-After value), a
`requests.RequestException` (including `raise_for_status`), or a completed
response with its text.  `random.uniform(0.5, 1.0)` is an oracle
`jitter : Nat → ℚ`; the theorems assume only its documented range.  The
run records the session events (GET calls and sleeps) and how the call
ends. -/

/-- Outcome of one `session.get` in `fetch_markdown_url`. -/
inductive AttemptResult where
  | rateLimited (retryAfter : Nat)
  | reqError
  | ok (text : String)
deriving DecidableEq

/-- Observable events of a `fetch_markdown_url` run. -/
inductive FetchEvent where
  | httpGet (attempt : Nat)
  | sleepRateLimit (seconds : Nat)
  | sleepBackoff (attempt : Nat) (seconds : ℚ)
deriving DecidableEq

/-- How a `fetch_markdown_url` call ends: a returned triple, the
exception after exhausting the retries, a propagated `ValueError`, or the
implicit `return None` when the loop ends without either. -/
inductive FetchOut where
  | success (filename content originalUrl : String)
  | raisedAfterRetries
  | raisedValidation
  | returnedNone
deriving DecidableEq

/-- The retry loop of `fetch_markdown_url`, from a given attempt index
with a given number of remaining iterations. -/
def fetchFrom (o : Nat → AttemptResult) (jitter : Nat → ℚ)
    (filename originalUrl : String) :
    Nat → Nat → List FetchEvent × FetchOut
  | _, 0 => ([], FetchOut.returnedNone)
  | attempt, r + 1 =>
    match o attempt with
    | AttemptResult.rateLimited w =>
      let rest := fetchFrom o jitter filename originalUrl (attempt + 1) r
      (FetchEvent.httpGet attempt :: FetchEvent.sleepRateLimit w :: rest.1, rest.2)
    | AttemptResult.ok text =>
      let content := clean_mdx_content text
      match validate_markdown_content content with
      | Except.ok _ =>
        ([FetchEvent.httpGet attempt], FetchOut.success filename content originalUrl)
      | Except.error _ => ([FetchEvent.httpGet attempt], FetchOut.raisedValidation)
    | AttemptResult.reqError =>
      if attempt < MAX_RETRIES - 1 then
        let d : ℚ := min ((RETRY_DELAY : ℚ) * 2 ^ attempt) (MAX_RETRY_DELAY : ℚ)
        let rest := fetchFrom o jitter filename originalUrl (attempt + 1) r
        (FetchEvent.httpGet attempt ::
          FetchEvent.sleepBackoff attempt (d * jitter attempt) :: rest.1, rest.2)
      else ([FetchEvent.httpGet attempt], FetchOut.raisedAfterRetries)

/-- Python `fetch_markdown_url`: normalize the URL, derive the filename,
run the retry loop. -/
def fetch_markdown_url (o : Nat → AttemptResult) (jitter : Nat → ℚ)
    (doc_url : String) : List FetchEvent × FetchOut :=
  let p := normalize_doc_url doc_url
  fetchFrom o jitter (url_to_safe_filename p.1) p.1 0 MAX_RETRIES

/-- Number of HTTP GET calls in an event list. -/
def countGets (evs : List FetchEvent) : Nat :=
  evs.countP (fun e => match e with
    | FetchEvent.httpGet _ => true
    | _ => false)

/-- All-failure oracle for the C1 witness. -/
def oFailW : Nat → AttemptResult := fun _ => AttemptResult.reqError

/-- Constant jitter for the C1 witness. -/
def jitterW : Nat → ℚ := fun _ => 1

/-- Rate-limited oracle for the C2 counterexample run: every attempt gets
an HTTP 429 whose Retry-After parses to 60. -/
def o429W : Nat → AttemptResult := fun _ => AttemptResult.rateLimited 60

/-!  `fetch_docs` (fetch.py lines 584-635) and `save_markdown_file`
(lines 511-517).  The fetch of each page is abstracted by an oracle
`outcome : String → Option String`: `some content` models
`fetch_markdown_url` returning `(filename, content, original_url)` (the
filename and original URL are the functions of the doc URL the code
computes), `none` models any exception out of it, including unpacking the
`None` return.  `hashlib.sha256(...).hexdigest()` is the standard library,
abstracted as a parameter `hash`; `json.dumps` for `save_manifest` is the
parameter `render`.  Manifest timestamps are not modelled. -/

/-- One entry of the manifest `files` map (the `last_updated` timestamp is
omitted). -/
structure ManifestEntry where
  original_url : String
  hash : String
deriving DecidableEq

/-- The state `fetch_docs` threads through its loop. -/
structure DocsState where
  fs : FS
  manifestFiles : String → Option ManifestEntry
  fetchedFiles : List String
  successful : Nat
  failed : Nat
  failedPages : List String

/-- Python `save_markdown_file`: write the file, return the digest of the
same content that was written. -/
def save_markdown_file (hash : String → String) (fs : FS)
    (filename content : String) : FS × String :=
  (fsWrite fs filename content, hash content)

/-- One iteration of the `fetch_docs` loop over a doc URL. -/
def fetchDocsStep (hash : String → String) (outcome : String → Option String)
    (st : DocsState) (doc_url : String) : DocsState :=
  match outcome doc_url with
  | none =>
    { st with failed := st.failed + 1,
              failedPages := st.failedPages ++ [doc_url] }
  | some content =>
    let originalUrl := (normalize_doc_url doc_url).1
    let filename := url_to_safe_filename originalUrl
    if filename ∈ CUSTOM_FILES then st
    else
      let saved := save_markdown_file hash st.fs filename content
      { fs := saved.1,
        manifestFiles := fun g =>
          if g = filename then some ⟨originalUrl, saved.2⟩
          else st.manifestFiles g,
        fetchedFiles :=
          if filename ∈ st.fetchedFiles then st.fetchedFiles
          else filename :: st.fetchedFiles,
        successful := st.successful + 1,
        failed := st.failed,
        failedPages := st.failedPages }

/-- Initial state of `fetch_docs` (`new_manifest = {"files": {}}` etc.). -/
def initDocsState (fs0 : FS) : DocsState :=
  ⟨fs0, fun _ => none, [], 0, 0, []⟩

/-- Python `fetch_docs`: run the loop over the discovered URLs, clean up
obsolete files, then save the manifest. -/
def fetch_docs (hash : String → String)
    (render : (String → Option ManifestEntry) → String)
    (outcome : String → Option String) (urls prevKeys : List String)
    (fs0 : FS) : DocsState :=
  let st1 := urls.foldl (fetchDocsStep hash outcome) (initDocsState fs0)
  let fsClean := cleanup_old_files st1.fetchedFiles prevKeys st1.fs
  { st1 with fs := fsWrite fsClean MANIFEST_FILE (render st1.manifestFiles) }

/-- A filename was successfully fetched (and not custom) for one of the
given URLs. -/
def successfulFetch (outcome : String → Option String) (urls : List String)
    (fn : String) : Prop :=
  ∃ u, u ∈ urls ∧ (outcome u).isSome = true ∧
    fn = url_to_safe_filename (normalize_doc_url u).1 ∧ fn ∉ CUSTOM_FILES

/-- Digest function for the C4 witness. -/
def hashW : String → String := fun c => "sha-" ++ c

/-- Manifest serialization for the C4 witness. -/
def renderW : (String → Option ManifestEntry) → String := fun _ => "rendered"

/-- Fetch oracle for the C4 witness: every page fetch returns the same
body. -/
def outcomeW : String → Option String := fun _ => some "doc body"

/-!  Theorems about the embedded program. -/
theorem lexLe_total (a b : List Char) : lexLe a b = true ∨ lexLe b a = true := by
  induction a generalizing b with
  | nil => left; rfl
  | cons x xs ih =>
    cases b with
    | nil => right; rfl
    | cons y ys =>
      by_cases hxy : x.toNat < y.toNat
      · left; simp [lexLe, hxy]
      · by_cases hyx : y.toNat < x.toNat
        · right; simp [lexLe, hyx]
        · rcases ih ys with h | h
          · left; simp [lexLe, hxy, hyx, h]
          · right; simp [lexLe, hxy, hyx, h]

theorem lexLe_trans {a b c : List Char} (h1 : lexLe a b = true)
    (h2 : lexLe b c = true) : lexLe a c = true := by
  induction a generalizing b c with
  | nil => rfl
  | cons x xs ih =>
    cases b with
    | nil => simp [lexLe] at h1
    | cons y ys =>
      cases c with
      | nil => simp [lexLe] at h2
      | cons z zs =>
        simp only [lexLe] at h1 h2 ⊢
        by_cases hxy : x.toNat < y.toNat
        · by_cases hyz : y.toNat < z.toNat
          · simp [Nat.lt_trans hxy hyz]
          · by_cases hzy : z.toNat < y.toNat
            · simp [hyz, hzy] at h2
            · have hyz2 : ¬ z.toNat < x.toNat := by omega
              have hxz : x.toNat < z.toNat := by omega
              simp [hxz]
        · by_cases hyx : y.toNat < x.toNat
          · simp [hxy, hyx] at h1
          · have hxyeq : x.toNat = y.toNat := by omega
            by_cases hyz : y.toNat < z.toNat
            · simp [hxyeq ▸ hyz]
            · by_cases hzy : z.toNat < y.toNat
              · simp [hyz, hzy] at h2
              · simp [hxy, hyx] at h1
                simp [hyz, hzy] at h2
                have hxz : ¬ x.toNat < z.toNat := by omega
                have hzx : ¬ z.toNat < x.toNat := by omega
                simp [hxz, hzx]
                exact ih h1 h2

instance : IsTotal String pyLe := ⟨fun a b => lexLe_total a.data b.data⟩

instance : IsTrans String pyLe := ⟨fun _ _ _ h1 h2 => lexLe_trans h1 h2⟩

theorem pySortedSet_sorted (xs : List String) :
    (pySortedSet xs).Sorted pyLe :=
  List.sorted_insertionSort pyLe xs.dedup

theorem pySortedSet_nodup (xs : List String) : (pySortedSet xs).Nodup :=
  (List.perm_insertionSort pyLe xs.dedup).symm.nodup xs.nodup_dedup

theorem mem_pySortedSet {x : String} {xs : List String} :
    x ∈ pySortedSet xs ↔ x ∈ xs := by
  unfold pySortedSet
  rw [(List.perm_insertionSort pyLe xs.dedup).mem_iff, List.mem_dedup]

/-!  Helper lemmas about the string primitives. -/

theorem stringMk_append (a b : List Char) :
    (⟨a⟩ : String) ++ (⟨b⟩ : String) = ⟨a ++ b⟩ := rfl

theorem string_data_mk (a : List Char) : (⟨a⟩ : String).data = a := rfl

/-- Removing a suffix with `dropRightS` and appending it back restores the
string. -/
theorem dropRightS_append_self {u suf : String}
    (h : pyEndsWith u suf = true) : dropRightS u suf.data.length ++ suf = u := by
  unfold pyEndsWith at h
  rw [List.isSuffixOf_iff_suffix] at h
  obtain ⟨t, ht⟩ := h
  cases u with
  | mk d =>
    simp only [string_data_mk] at ht
    subst ht
    unfold dropRightS
    simp only [string_data_mk, List.length_append]
    rw [Nat.add_sub_cancel, List.take_left]
    cases suf with
    | mk sd => rfl

theorem pyEndsWith_append_self (x suf : String) :
    pyEndsWith (x ++ suf) suf = true := by
  unfold pyEndsWith
  rw [List.isSuffixOf_iff_suffix]
  exact ⟨x.data, rfl⟩

theorem slash_not_mem_replaceSlash (l : List Char) : '/' ∉ replaceSlash l := by
  induction l with
  | nil => simp [replaceSlash]
  | cons c r ih =>
    by_cases hc : c = '/'
    · simp [replaceSlash, hc, ih]
    · simp [replaceSlash, hc, ih]
      exact fun h => hc h.symm

/-- Claim C10: `normalize_doc_url` always returns a pair whose second
component (the markdown URL) is the first component (the original URL) with
`".md"` appended, whatever the input ends with. -/
theorem normalize_doc_url_appends_md (url : String) :
    (normalize_doc_url url).2 = (normalize_doc_url url).1 ++ ".md" := by
  simp only [normalize_doc_url]
  generalize (if pyEndsWith (pyStrip url) "/" = true then dropRightS (pyStrip url) 1
              else pyStrip url) = u
  split_ifs with h1 h2
  · exact (@dropRightS_append_self u ".md" h1).symm
  · rfl
  · rfl

theorem safeName_endsWith_md (slug : String) :
    pyEndsWith (safeName slug) ".md" = true := by
  simp only [safeName]
  split_ifs with h
  · exact h
  · exact pyEndsWith_append_self _ _

theorem safeName_no_slash (slug : String) : '/' ∉ (safeName slug).data := by
  simp only [safeName]
  split_ifs with h
  · exact fun hm => slash_not_mem_replaceSlash _ hm
  · intro hm
    rw [stringMk_append, string_data_mk] at hm
    rcases List.mem_append.mp hm with hm | hm
    · exact slash_not_mem_replaceSlash _ hm
    · simp at hm

set_option maxHeartbeats 1000000 in
/-- Claim C9 (amended): `url_to_safe_filename` always produces a filename
that ends in `".md"` and contains no `/` (so it names a file directly in
the references directory), and the empty input yields `"index.md"`.  (The
part of the claim asserting a non-empty base name is refuted by
`url_to_safe_filename_empty_base` below.) -/
theorem url_to_safe_filename_safe (s : String) :
    pyEndsWith (url_to_safe_filename s) ".md" = true ∧
    '/' ∉ (url_to_safe_filename s).data ∧
    url_to_safe_filename "" = "index.md" :=
  ⟨safeName_endsWith_md _, safeName_no_slash _, by decide⟩

set_option maxHeartbeats 1000000 in
/-- Claim C9, counterexample: the input `".md.md"` produces the filename
`".md"`, whose base name (the part before the `.md` extension) is empty. -/
theorem url_to_safe_filename_empty_base :
    url_to_safe_filename ".md.md" = ".md" ∧
    dropRightS (url_to_safe_filename ".md.md") 3 = "" := by decide

/-!  Correctness lemmas for the block-substitution engine. -/

/-- Claim C7: `validate_markdown_content` raises `ValueError` if and only
if the content is empty, starts with `<!DOCTYPE`, contains `<html` in its
first 100 characters, has stripped length below 50, or has fewer than 3 of
its first 50 lines containing a markdown indicator; otherwise it returns
normally. -/
theorem validate_markdown_content_error_iff (content : String) :
    ((∃ e, validate_markdown_content content = Except.error e) ↔
      (content = "" ∨ pyStartsWith content "<!DOCTYPE" = true ∨
       strContains (takeS content 100) "<html" = true ∨
       (pyStrip content).data.length < 50 ∨ indicatorCount content < 3)) ∧
    ((validate_markdown_content content = Except.ok ()) ↔
      ¬ (content = "" ∨ pyStartsWith content "<!DOCTYPE" = true ∨
         strContains (takeS content 100) "<html" = true ∨
         (pyStrip content).data.length < 50 ∨ indicatorCount content < 3)) := by
  have hok : validate_markdown_content content = Except.ok () ↔
      ¬ (content = "" ∨ pyStartsWith content "<!DOCTYPE" = true ∨
         strContains (takeS content 100) "<html" = true ∨
         (pyStrip content).data.length < 50 ∨ indicatorCount content < 3) := by
    simp only [validate_markdown_content]
    split_ifs with ha hb hc
    · exact ⟨fun h => absurd h (by simp), fun hn => absurd (by tauto) hn⟩
    · exact ⟨fun h => absurd h (by simp), fun hn => absurd (by tauto) hn⟩
    · exact ⟨fun h => absurd h (by simp), fun hn => absurd (by tauto) hn⟩
    · exact ⟨fun _ => by tauto, fun _ => rfl⟩
  have hexh : (∃ e, validate_markdown_content content = Except.error e) ↔
      ¬ (validate_markdown_content content = Except.ok ()) := by
    cases hv : validate_markdown_content content with
    | error e => simp
    | ok u => cases u; simp
  exact ⟨hexh.trans (by rw [hok, not_not]), hok⟩

/-- Claim C6: `validate_skill_md` returns `orphaned` = referenced minus
fetched minus the manifest file minus the custom files, `unreferenced` =
fetched minus referenced minus the manifest file (custom files are not
excluded), and `custom` = referenced intersected with the custom files;
each output is sorted and duplicate-free. -/
theorem validate_skill_md_spec (referenced fetched : List String) :
    (∀ f, f ∈ (validate_skill_md referenced fetched).orphaned ↔
       (f ∈ referenced ∧ f ∉ fetched ∧ f ≠ MANIFEST_FILE ∧ f ∉ CUSTOM_FILES)) ∧
    (∀ f, f ∈ (validate_skill_md referenced fetched).unreferenced ↔
       (f ∈ fetched ∧ f ∉ referenced ∧ f ≠ MANIFEST_FILE)) ∧
    (∀ f, f ∈ (validate_skill_md referenced fetched).custom ↔
       (f ∈ referenced ∧ f ∈ CUSTOM_FILES)) ∧
    (validate_skill_md referenced fetched).orphaned.Sorted pyLe ∧
    (validate_skill_md referenced fetched).orphaned.Nodup ∧
    (validate_skill_md referenced fetched).unreferenced.Sorted pyLe ∧
    (validate_skill_md referenced fetched).unreferenced.Nodup ∧
    (validate_skill_md referenced fetched).custom.Sorted pyLe ∧
    (validate_skill_md referenced fetched).custom.Nodup := by
  refine ⟨?_, ?_, ?_, pySortedSet_sorted _, pySortedSet_nodup _,
    pySortedSet_sorted _, pySortedSet_nodup _,
    pySortedSet_sorted _, pySortedSet_nodup _⟩ <;>
  · intro f
    simp only [validate_skill_md, mem_pySortedSet, List.mem_filter,
      decide_eq_true_eq]
    try tauto

theorem processLlmsLine_sdk {base line u : String}
    (h : processLlmsLine base line = some u) : is_agent_sdk_url u = true := by
  simp only [processLlmsLine] at h
  split_ifs at h <;>
    first
      | exact Option.noConfusion h
      | (obtain rfl := Option.some.inj h
         rename_i hand
         rw [Bool.and_eq_true] at hand
         exact hand.2)

/-- The llms.txt loop returns `[]` or a sorted deduplicated parse
result. -/
theorem llmsGo_cases (resp : String → Option (Nat × String))
    (cands : List String) :
    llmsGo resp cands = [] ∨
      ∃ text base, llmsGo resp cands = pySortedSet (parse_llms_txt text base) := by
  induction cands with
  | nil => exact Or.inl rfl
  | cons u rest ih =>
    by_cases hu : u = ""
    · simpa [llmsGo, hu] using ih
    · rcases hr : resp u with _ | ⟨status, text⟩
      · simpa [llmsGo, hu, hr] using ih
      · by_cases hs : status ≠ 200
        · simpa [llmsGo, hu, hr, hs] using ih
        · by_cases he : (parse_llms_txt text
              ((urlparse u).scheme ++ "://" ++ (urlparse u).netloc)).isEmpty
          · simpa [llmsGo, hu, hr, hs, he] using ih
          · refine Or.inr ⟨text, (urlparse u).scheme ++ "://" ++ (urlparse u).netloc, ?_⟩
            simp [llmsGo, hu, hr, hs, he]

/-- The sitemap loop returns `[]` or a sorted deduplicated filtered
list. -/
theorem sitemapGo_cases (sresp : String → Option (List String))
    (cands : List String) :
    sitemapGo sresp cands = [] ∨
      ∃ urls : List String,
        sitemapGo sresp cands = pySortedSet (urls.filter is_agent_sdk_url) := by
  induction cands with
  | nil => exact Or.inl rfl
  | cons u rest ih =>
    by_cases hu : u = ""
    · simpa [sitemapGo, hu] using ih
    · rcases hr : sresp u with _ | urls
      · simpa [sitemapGo, hu, hr] using ih
      · by_cases he : urls.isEmpty
        · simpa [sitemapGo, hu, hr, he] using ih
        · by_cases ha : (urls.filter is_agent_sdk_url).isEmpty
          · simpa [sitemapGo, hu, hr, he, ha] using ih
          · refine Or.inr ⟨urls, ?_⟩
            simp [sitemapGo, hu, hr, he, ha]

/-- Claim C3: `discover_doc_urls` returns the llms.txt result when
non-empty, else the sitemap result when non-empty, else the static
fallback list; both the llms.txt and sitemap results contain only URLs
with an Agent SDK path marker, and are sorted and duplicate-free. -/
theorem discover_doc_urls_spec (resp : String → Option (Nat × String))
    (sresp : String → Option (List String)) (envL envS : Option String) :
    (discover_pages_from_llms resp envL ≠ [] →
       discover_doc_urls resp sresp envL envS = discover_pages_from_llms resp envL) ∧
    (discover_pages_from_llms resp envL = [] →
       discover_pages_from_sitemap sresp envS ≠ [] →
       discover_doc_urls resp sresp envL envS = discover_pages_from_sitemap sresp envS) ∧
    (discover_pages_from_llms resp envL = [] →
       discover_pages_from_sitemap sresp envS = [] →
       discover_doc_urls resp sresp envL envS = get_fallback_pages) ∧
    (∀ u ∈ discover_pages_from_llms resp envL, is_agent_sdk_url u = true) ∧
    (discover_pages_from_llms resp envL).Sorted pyLe ∧
    (discover_pages_from_llms resp envL).Nodup ∧
    (∀ u ∈ discover_pages_from_sitemap sresp envS, is_agent_sdk_url u = true) ∧
    (discover_pages_from_sitemap sresp envS).Sorted pyLe ∧
    (discover_pages_from_sitemap sresp envS).Nodup := by
  refine ⟨?_, ?_, ?_, ?_, ?_, ?_, ?_, ?_, ?_⟩
  · intro h
    simp [discover_doc_urls, List.isEmpty_iff, h]
  · intro h1 h2
    simp [discover_doc_urls, List.isEmpty_iff, h1, h2]
  · intro h1 h2
    simp [discover_doc_urls, List.isEmpty_iff, h1, h2]
  · intro u hu
    rcases llmsGo_cases resp (llmsCandidates envL) with hc | ⟨text, base, hc⟩
    · rw [discover_pages_from_llms, hc] at hu
      exact absurd hu (List.not_mem_nil u)
    · rw [discover_pages_from_llms, hc, mem_pySortedSet] at hu
      obtain ⟨line, _, hp⟩ := List.mem_filterMap.mp hu
      exact processLlmsLine_sdk hp
  · rcases llmsGo_cases resp (llmsCandidates envL) with hc | ⟨text, base, hc⟩ <;>
      rw [discover_pages_from_llms, hc]
    · exact List.sorted_nil
    · exact pySortedSet_sorted _
  · rcases llmsGo_cases resp (llmsCandidates envL) with hc | ⟨text, base, hc⟩ <;>
      rw [discover_pages_from_llms, hc]
    · exact List.nodup_nil
    · exact pySortedSet_nodup _
  · intro u hu
    rcases sitemapGo_cases sresp (sitemapCandidates envS) with hc | ⟨urls, hc⟩
    · rw [discover_pages_from_sitemap, hc] at hu
      exact absurd hu (List.not_mem_nil u)
    · rw [discover_pages_from_sitemap, hc, mem_pySortedSet] at hu
      exact List.of_mem_filter hu
  · rcases sitemapGo_cases sresp (sitemapCandidates envS) with hc | ⟨urls2, hc⟩ <;>
      rw [discover_pages_from_sitemap, hc]
    · exact List.sorted_nil
    · exact pySortedSet_sorted _
  · rcases sitemapGo_cases sresp (sitemapCandidates envS) with hc | ⟨urls2, hc⟩ <;>
      rw [discover_pages_from_sitemap, hc]
    · exact List.nodup_nil
    · exact pySortedSet_nodup _

set_option maxHeartbeats 4000000 in
/-- Witness for C3: with a concrete llms.txt response the discovery
returns the (non-empty) llms.txt result. -/
theorem discover_doc_urls_spec_witness :
    discover_pages_from_llms llmsRespW none ≠ [] ∧
    discover_doc_urls llmsRespW sitemapRespW none none =
      discover_pages_from_llms llmsRespW none :=
  ⟨by decide, (discover_doc_urls_spec llmsRespW sitemapRespW none none).1 (by decide)⟩

/-- One deletion step of `cleanup_old_files`, described pointwise. -/
theorem cleanupStep_apply (acc : FS) (f g : String) :
    cleanupStep acc f g =
      (if g = f ∧ ¬ (f = MANIFEST_FILE ∨ f ∈ CUSTOM_FILES) then none
       else acc g) := by
  unfold cleanupStep
  by_cases hp : f = MANIFEST_FILE ∨ f ∈ CUSTOM_FILES
  · rw [if_pos hp, if_neg (by tauto)]
  · rw [if_neg hp]
    cases hacc : acc f with
    | none =>
      by_cases hg : g = f
      · rw [if_pos ⟨hg, hp⟩, hg]
        exact hacc
      · rw [if_neg (by tauto)]
    | some v =>
      unfold fsDelete
      dsimp only
      by_cases hg : g = f
      · rw [if_pos hg, if_pos ⟨hg, hp⟩]
      · rw [if_neg hg, if_neg (fun hc => hg hc.1)]

theorem cleanup_foldl_apply (rem : List String) (fs : FS) (g : String) :
    (rem.foldl cleanupStep fs) g =
      (if g ∈ rem ∧ ¬ (g = MANIFEST_FILE ∨ g ∈ CUSTOM_FILES) then none
       else fs g) := by
  induction rem generalizing fs with
  | nil => simp
  | cons r rs ih =>
    rw [List.foldl_cons, ih, cleanupStep_apply]
    by_cases hmem : g ∈ rs ∧ ¬ (g = MANIFEST_FILE ∨ g ∈ CUSTOM_FILES)
    · rw [if_pos hmem, if_pos ⟨List.mem_cons_of_mem _ hmem.1, hmem.2⟩]
    · rw [if_neg hmem]
      by_cases hgr : g = r ∧ ¬ (g = MANIFEST_FILE ∨ g ∈ CUSTOM_FILES)
      · obtain ⟨hge, hnp⟩ := hgr
        subst hge
        rw [if_pos ⟨rfl, hnp⟩, if_pos ⟨List.mem_cons_self g rs, hnp⟩]
      · have hinner : ¬ (g = r ∧ ¬ (r = MANIFEST_FILE ∨ r ∈ CUSTOM_FILES)) := by
          intro hc
          obtain ⟨hge, hnp⟩ := hc
          subst hge
          exact hgr ⟨rfl, hnp⟩
        rw [if_neg hinner, if_neg]
        intro hc
        obtain ⟨hmc, hnp⟩ := hc
        rcases List.mem_cons.mp hmc with hge | hmem2
        · exact hgr ⟨hge, hnp⟩
        · exact hmem ⟨hmem2, hnp⟩

/-- Claim C5: `cleanup_old_files` deletes exactly the files that are in
the previous manifest but not in the current fetched set, never touching
the manifest file or the custom files; files in the current set are left
unchanged. -/
theorem cleanup_old_files_spec (current prevFiles : List String) (fs : FS)
    (f : String) :
    cleanup_old_files current prevFiles fs f =
      (if f ∈ prevFiles ∧ f ∉ current ∧ f ≠ MANIFEST_FILE ∧ f ∉ CUSTOM_FILES
       then none else fs f) ∧
    (f ∈ current → cleanup_old_files current prevFiles fs f = fs f) := by
  have main : cleanup_old_files current prevFiles fs f =
      (if f ∈ prevFiles ∧ f ∉ current ∧ f ≠ MANIFEST_FILE ∧ f ∉ CUSTOM_FILES
       then none else fs f) := by
    unfold cleanup_old_files
    rw [cleanup_foldl_apply]
    by_cases h : f ∈ prevFiles ∧ f ∉ current ∧ f ≠ MANIFEST_FILE ∧ f ∉ CUSTOM_FILES
    · rw [if_pos h]
      rw [if_pos]
      refine ⟨List.mem_filter.mpr ⟨h.1, by simpa using h.2.1⟩, ?_⟩
      tauto
    · rw [if_neg h]
      rw [if_neg]
      intro hc
      rcases hc with ⟨hmem, hprot⟩
      rcases List.mem_filter.mp hmem with ⟨hprev, hcur⟩
      exact h ⟨hprev, by simpa using hcur, fun he => hprot (Or.inl he),
        fun hc2 => hprot (Or.inr hc2)⟩
  refine ⟨main, fun hcur => ?_⟩
  rw [main, if_neg]
  tauto

theorem fetchFrom_gets (o : Nat → AttemptResult) (jitter : Nat → ℚ)
    (fn ou : String) :
    ∀ r a, countGets (fetchFrom o jitter fn ou a r).1 ≤ r := by
  intro r
  induction r with
  | zero => intro a; simp [fetchFrom, countGets]
  | succ k ih =>
    intro a
    cases ho : o a with
    | rateLimited w =>
      simp [fetchFrom, ho, countGets, List.countP_cons]
      have := ih (a + 1)
      simp only [countGets] at this
      omega
    | ok text =>
      cases hv : validate_markdown_content (clean_mdx_content text) with
      | ok u => simp [fetchFrom, ho, hv, countGets, List.countP_cons]
      | error e => simp [fetchFrom, ho, hv, countGets, List.countP_cons]
    | reqError =>
      by_cases hg : a < MAX_RETRIES - 1
      · simp [fetchFrom, ho, if_pos hg, countGets, List.countP_cons]
        have := ih (a + 1)
        simp only [countGets] at this
        omega
      · simp [fetchFrom, ho, if_neg hg, countGets, List.countP_cons]

theorem fetchFrom_sleeps (o : Nat → AttemptResult) (jitter : Nat → ℚ)
    (fn ou : String) :
    ∀ r a i q, FetchEvent.sleepBackoff i q ∈ (fetchFrom o jitter fn ou a r).1 →
      q = min ((RETRY_DELAY : ℚ) * 2 ^ i) (MAX_RETRY_DELAY : ℚ) * jitter i ∧
      i < MAX_RETRIES - 1 := by
  intro r
  induction r with
  | zero => intro a i q h; simp [fetchFrom] at h
  | succ k ih =>
    intro a i q h
    cases ho : o a with
    | rateLimited w =>
      rw [fetchFrom, ho] at h
      simp only [List.mem_cons] at h
      rcases h with h | h | h
      · exact absurd h (by simp)
      · exact absurd h (by simp)
      · exact ih (a + 1) i q h
    | ok text =>
      rw [fetchFrom, ho] at h
      dsimp only at h
      cases hv : validate_markdown_content (clean_mdx_content text) with
      | ok u => rw [hv] at h; simp at h
      | error e => rw [hv] at h; simp at h
    | reqError =>
      by_cases hg : a < MAX_RETRIES - 1
      · rw [fetchFrom, ho, if_pos hg] at h
        simp only [List.mem_cons] at h
        rcases h with h | h | h
        · exact absurd h (by simp)
        · obtain ⟨rfl, rfl⟩ : i = a ∧
              q = min ((RETRY_DELAY : ℚ) * 2 ^ a) (MAX_RETRY_DELAY : ℚ) * jitter a := by
            simpa [FetchEvent.sleepBackoff.injEq] using h
          exact ⟨rfl, hg⟩
        · exact ih (a + 1) i q h
      · rw [fetchFrom, ho, if_neg hg] at h
        simp at h

theorem fetchFrom_allfail (o : Nat → AttemptResult) (jitter : Nat → ℚ)
    (fn ou : String) :
    ∀ r a, (∀ i, a ≤ i → i < a + r → o i = AttemptResult.reqError) →
      a + r = MAX_RETRIES → 1 ≤ r →
      (fetchFrom o jitter fn ou a r).2 = FetchOut.raisedAfterRetries := by
  intro r
  induction r with
  | zero => intro a _ _ h1; omega
  | succ k ih =>
    intro a hall hsum _
    have ho : o a = AttemptResult.reqError := hall a (le_refl a) (by omega)
    cases k with
    | zero =>
      have hg : ¬ a < MAX_RETRIES - 1 := by
        simp only [MAX_RETRIES] at hsum ⊢
        omega
      rw [fetchFrom, ho, if_neg hg]
    | succ j =>
      have hg : a < MAX_RETRIES - 1 := by
        simp only [MAX_RETRIES] at hsum ⊢
        omega
      rw [fetchFrom, ho, if_pos hg]
      exact ih (a + 1) (fun i h1 h2 => hall i (by omega) (by omega)) (by omega)
        (by omega)

set_option maxHeartbeats 2000000 in
/-- Claim C1: `fetch_markdown_url` makes at most `MAX_RETRIES = 3` GET
attempts; every backoff sleep after a request failure lasts
`min(RETRY_DELAY * 2^attempt, MAX_RETRY_DELAY)` scaled by the jitter
factor — hence between half the delay and the full delay — and only
occurs when a retry follows; and when all three attempts fail with a
request exception the call raises instead of returning. -/
theorem fetch_markdown_url_retry (o : Nat → AttemptResult) (jitter : Nat → ℚ)
    (doc_url : String) (hj : ∀ i, 1 / 2 ≤ jitter i ∧ jitter i ≤ 1) :
    MAX_RETRIES = 3 ∧
    countGets (fetch_markdown_url o jitter doc_url).1 ≤ MAX_RETRIES ∧
    (∀ i q, FetchEvent.sleepBackoff i q ∈ (fetch_markdown_url o jitter doc_url).1 →
      q = min ((RETRY_DELAY : ℚ) * 2 ^ i) (MAX_RETRY_DELAY : ℚ) * jitter i ∧
      min ((RETRY_DELAY : ℚ) * 2 ^ i) (MAX_RETRY_DELAY : ℚ) / 2 ≤ q ∧
      q ≤ min ((RETRY_DELAY : ℚ) * 2 ^ i) (MAX_RETRY_DELAY : ℚ) ∧
      i < MAX_RETRIES - 1) ∧
    ((∀ i, i < MAX_RETRIES → o i = AttemptResult.reqError) →
      (fetch_markdown_url o jitter doc_url).2 = FetchOut.raisedAfterRetries) := by
  have hunf : fetch_markdown_url o jitter doc_url =
      fetchFrom o jitter
        (url_to_safe_filename (normalize_doc_url doc_url).1)
        (normalize_doc_url doc_url).1 0 MAX_RETRIES := rfl
  refine ⟨rfl, ?_, ?_, ?_⟩
  · rw [hunf]
    exact fetchFrom_gets o jitter _ _ MAX_RETRIES 0
  · intro i q hmem
    rw [hunf] at hmem
    obtain ⟨hq, hlt⟩ := fetchFrom_sleeps o jitter _ _ MAX_RETRIES 0 i q hmem
    set d : ℚ := min ((RETRY_DELAY : ℚ) * 2 ^ i) (MAX_RETRY_DELAY : ℚ) with hd
    have hd0 : 0 ≤ d := le_min (by positivity) (by norm_num [MAX_RETRY_DELAY])
    obtain ⟨hj1, hj2⟩ := hj i
    refine ⟨hq, ?_, ?_, hlt⟩
    · rw [hq]
      calc d / 2 = d * (1 / 2) := by ring
        _ ≤ d * jitter i := by
            exact mul_le_mul_of_nonneg_left hj1 hd0
    · rw [hq]
      calc d * jitter i ≤ d * 1 := mul_le_mul_of_nonneg_left hj2 hd0
        _ = d := by ring
  · intro hall
    rw [hunf]
    exact fetchFrom_allfail o jitter _ _ MAX_RETRIES 0
      (fun i h1 h2 => hall i (by omega)) (by omega) (by norm_num [MAX_RETRIES])

/-- Witness for C1: with every attempt failing, the call raises after the
retries. -/
theorem fetch_markdown_url_retry_witness :
    (fetch_markdown_url oFailW jitterW
        "https://platform.claude.com/docs/en/agent-sdk/overview").2 =
      FetchOut.raisedAfterRetries :=
  (fetch_markdown_url_retry oFailW jitterW
      "https://platform.claude.com/docs/en/agent-sdk/overview"
      (fun i => ⟨by norm_num [jitterW], by norm_num [jitterW]⟩)).2.2.2
    (fun i _ => rfl)

set_option maxHeartbeats 4000000 in
/-- Claim C2: when all `MAX_RETRIES` attempts receive HTTP 429, the loop
is exhausted through the `continue` branch — three GETs, three
rate-limit sleeps, no raise — and the function falls off the loop,
returning Python `None` instead of the declared string triple. -/
theorem fetch_markdown_url_429_returns_none :
    (fetch_markdown_url o429W (fun _ => 1)
        "https://platform.claude.com/docs/en/agent-sdk/overview").2 =
      FetchOut.returnedNone ∧
    (fetch_markdown_url o429W (fun _ => 1)
        "https://platform.claude.com/docs/en/agent-sdk/overview").1 =
      [FetchEvent.httpGet 0, FetchEvent.sleepRateLimit 60,
       FetchEvent.httpGet 1, FetchEvent.sleepRateLimit 60,
       FetchEvent.httpGet 2, FetchEvent.sleepRateLimit 60] ∧
    countGets (fetch_markdown_url o429W (fun _ => 1)
        "https://platform.claude.com/docs/en/agent-sdk/overview").1 =
      MAX_RETRIES := by
  refine ⟨rfl, ?_, rfl⟩
  rfl

theorem step_manifest_isSome (hash : String → String)
    (outcome : String → Option String) (st : DocsState) (u fn : String) :
    ((fetchDocsStep hash outcome st u).manifestFiles fn).isSome = true ↔
      ((st.manifestFiles fn).isSome = true ∨
        ((outcome u).isSome = true ∧
          fn = url_to_safe_filename (normalize_doc_url u).1 ∧
          fn ∉ CUSTOM_FILES)) := by
  cases ho : outcome u with
  | none => simp [fetchDocsStep, ho]
  | some content =>
    simp only [fetchDocsStep, ho]
    set w := url_to_safe_filename (normalize_doc_url u).1 with hw
    clear_value w
    by_cases hcust : w ∈ CUSTOM_FILES
    · rw [if_pos hcust]
      constructor
      · exact fun h => Or.inl h
      · intro h
        rcases h with h | ⟨_, rfl, hnc⟩
        · exact h
        · exact absurd hcust hnc
    · rw [if_neg hcust]
      dsimp only
      by_cases hfn : fn = w
      · subst hfn
        rw [if_pos rfl]
        simp [hcust]
      · rw [if_neg hfn]
        simp [hfn]

theorem step_hash_transfer (hash : String → String)
    (outcome : String → Option String) (st : DocsState) (u : String)
    (hst : ∀ fn e, st.manifestFiles fn = some e →
      ∃ c, st.fs fn = some c ∧ e.hash = hash c) :
    ∀ fn e, (fetchDocsStep hash outcome st u).manifestFiles fn = some e →
      ∃ c, (fetchDocsStep hash outcome st u).fs fn = some c ∧
        e.hash = hash c := by
  intro fn e h
  cases ho : outcome u with
  | none =>
    simp only [fetchDocsStep, ho] at h ⊢
    exact hst fn e h
  | some content =>
    simp only [fetchDocsStep, ho] at h ⊢
    set w := url_to_safe_filename (normalize_doc_url u).1 with hw
    clear_value w
    by_cases hcust : w ∈ CUSTOM_FILES
    · rw [if_pos hcust] at h ⊢
      exact hst fn e h
    · rw [if_neg hcust] at h ⊢
      simp only [save_markdown_file, fsWrite] at h ⊢
      try dsimp only at h ⊢
      by_cases hfn : fn = w
      · rw [if_pos hfn] at h
        obtain rfl := Option.some.inj h
        refine ⟨content, ?_, rfl⟩
        rw [if_pos hfn]
      · rw [if_neg hfn] at h
        obtain ⟨c, hc1, hc2⟩ := hst fn e h
        refine ⟨c, ?_, hc2⟩
        rw [if_neg hfn]
        exact hc1

theorem step_fetched_iff (hash : String → String)
    (outcome : String → Option String) (st : DocsState) (u : String)
    (hst : ∀ fn, fn ∈ st.fetchedFiles ↔ (st.manifestFiles fn).isSome = true) :
    ∀ fn, fn ∈ (fetchDocsStep hash outcome st u).fetchedFiles ↔
      ((fetchDocsStep hash outcome st u).manifestFiles fn).isSome = true := by
  intro fn
  cases ho : outcome u with
  | none =>
    simp only [fetchDocsStep, ho]
    exact hst fn
  | some content =>
    simp only [fetchDocsStep, ho]
    set w := url_to_safe_filename (normalize_doc_url u).1 with hw
    clear_value w
    by_cases hcust : w ∈ CUSTOM_FILES
    · rw [if_pos hcust]
      exact hst fn
    · rw [if_neg hcust]
      dsimp only
      by_cases hfn : fn = w
      · subst hfn
        rw [if_pos rfl]
        by_cases hmem : fn ∈ st.fetchedFiles
        · rw [if_pos hmem]
          simp [hmem]
        · rw [if_neg hmem]
          simp
      · rw [if_neg hfn]
        by_cases hmem : w ∈ st.fetchedFiles
        · rw [if_pos hmem]
          exact hst fn
        · rw [if_neg hmem]
          rw [List.mem_cons]
          constructor
          · intro h
            rcases h with h | h
            · exact absurd h hfn
            · exact (hst fn).mp h
          · intro h
            exact Or.inr ((hst fn).mpr h)

theorem fetchDocs_loop (hash : String → String)
    (outcome : String → Option String) :
    ∀ (urls : List String) (st : DocsState),
      (∀ fn, ((urls.foldl (fetchDocsStep hash outcome) st).manifestFiles fn).isSome = true ↔
        ((st.manifestFiles fn).isSome = true ∨ successfulFetch outcome urls fn)) ∧
      ((∀ fn e, st.manifestFiles fn = some e →
          ∃ c, st.fs fn = some c ∧ e.hash = hash c) →
        ∀ fn e, (urls.foldl (fetchDocsStep hash outcome) st).manifestFiles fn = some e →
          ∃ c, (urls.foldl (fetchDocsStep hash outcome) st).fs fn = some c ∧
            e.hash = hash c) ∧
      ((∀ fn, fn ∈ st.fetchedFiles ↔ (st.manifestFiles fn).isSome = true) →
        ∀ fn, fn ∈ (urls.foldl (fetchDocsStep hash outcome) st).fetchedFiles ↔
          ((urls.foldl (fetchDocsStep hash outcome) st).manifestFiles fn).isSome = true) := by
  intro urls
  induction urls with
  | nil =>
    intro st
    refine ⟨?_, ?_, ?_⟩
    · intro fn
      simp [successfulFetch]
    · intro h fn e
      exact h fn e
    · intro h fn
      exact h fn
  | cons u rest ih =>
    intro st
    obtain ⟨iha, ihb, ihc⟩ := ih (fetchDocsStep hash outcome st u)
    have hsf : ∀ fn, successfulFetch outcome (u :: rest) fn ↔
        (((outcome u).isSome = true ∧
          fn = url_to_safe_filename (normalize_doc_url u).1 ∧
          fn ∉ CUSTOM_FILES) ∨ successfulFetch outcome rest fn) := by
      intro fn
      unfold successfulFetch
      constructor
      · rintro ⟨v, hv, h1, h2, h3⟩
        rcases List.mem_cons.mp hv with rfl | hv2
        · exact Or.inl ⟨h1, h2, h3⟩
        · exact Or.inr ⟨v, hv2, h1, h2, h3⟩
      · rintro (⟨h1, h2, h3⟩ | ⟨v, hv, h1, h2, h3⟩)
        · exact ⟨u, List.mem_cons_self u rest, h1, h2, h3⟩
        · exact ⟨v, List.mem_cons_of_mem u hv, h1, h2, h3⟩
    refine ⟨?_, ?_, ?_⟩
    · intro fn
      rw [List.foldl_cons, iha fn, step_manifest_isSome, hsf fn]
      tauto
    · intro hbase fn e h
      rw [List.foldl_cons] at h ⊢
      exact ihb (step_hash_transfer hash outcome st u hbase) fn e h
    · intro hbase fn
      rw [List.foldl_cons]
      exact ihc (step_fetched_iff hash outcome st u hbase) fn

/-- Files kept in the current fetched set are untouched by
`cleanup_old_files`. -/
theorem cleanup_keep_current {current prevKeys : List String} (fs : FS)
    {fn : String} (h : fn ∈ current) :
    cleanup_old_files current prevKeys fs fn = fs fn := by
  unfold cleanup_old_files
  rw [cleanup_foldl_apply, if_neg]
  intro hc
  obtain ⟨hmem, _⟩ := hc
  have := (List.mem_filter.mp hmem).2
  rw [decide_eq_true_eq] at this
  exact this h

set_option maxHeartbeats 1000000 in
/-- Claim C4: after `fetch_docs`, the manifest's files map holds exactly
the filenames of the successfully fetched, saved, non-custom pages, and
each entry's hash is the digest — as computed and returned by
`save_markdown_file` — of the file content on disk for that filename. -/
theorem fetch_docs_manifest_spec (hash : String → String)
    (render : (String → Option ManifestEntry) → String)
    (outcome : String → Option String) (urls prevKeys : List String)
    (fs0 : FS) :
    (∀ fn, ((fetch_docs hash render outcome urls prevKeys fs0).manifestFiles fn).isSome = true ↔
       successfulFetch outcome urls fn) ∧
    (∀ fn e, (fetch_docs hash render outcome urls prevKeys fs0).manifestFiles fn = some e →
       ∃ c, (fetch_docs hash render outcome urls prevKeys fs0).fs fn = some c ∧
         e.hash = hash c) := by
  obtain ⟨ha, hb, hc⟩ := fetchDocs_loop hash outcome urls (initDocsState fs0)
  have hm : (fetch_docs hash render outcome urls prevKeys fs0).manifestFiles =
      (urls.foldl (fetchDocsStep hash outcome) (initDocsState fs0)).manifestFiles := rfl
  have hfsd : (fetch_docs hash render outcome urls prevKeys fs0).fs =
      fsWrite (cleanup_old_files
          (urls.foldl (fetchDocsStep hash outcome) (initDocsState fs0)).fetchedFiles
          prevKeys
          (urls.foldl (fetchDocsStep hash outcome) (initDocsState fs0)).fs)
        MANIFEST_FILE
        (render (urls.foldl (fetchDocsStep hash outcome) (initDocsState fs0)).manifestFiles) := rfl
  constructor
  · intro fn
    rw [hm, ha fn]
    simp [initDocsState]
  · intro fn e hsome
    rw [hm] at hsome
    have hbase : ∀ fn e, (initDocsState fs0).manifestFiles fn = some e →
        ∃ c, (initDocsState fs0).fs fn = some c ∧ e.hash = hash c := by
      intro fn e h
      exact absurd h (by simp [initDocsState])
    obtain ⟨c, hc1, hc2⟩ := hb hbase fn e hsome
    refine ⟨c, ?_, hc2⟩
    have hisSome : ((urls.foldl (fetchDocsStep hash outcome)
        (initDocsState fs0)).manifestFiles fn).isSome = true := by
      rw [hsome]; rfl
    have hfetched : fn ∈ (urls.foldl (fetchDocsStep hash outcome)
        (initDocsState fs0)).fetchedFiles :=
      (hc (by intro g; simp [initDocsState]) fn).mpr hisSome
    have hsucc : successfulFetch outcome urls fn := by
      have := (ha fn).mp hisSome
      rcases this with h | h
      · exact absurd h (by simp [initDocsState])
      · exact h
    have hne : fn ≠ MANIFEST_FILE := by
      obtain ⟨u, _, _, hfn, _⟩ := hsucc
      intro hEq
      have hend : pyEndsWith fn ".md" = true := by
        rw [hfn]
        exact safeName_endsWith_md _
      rw [hEq] at hend
      have hmf : pyEndsWith MANIFEST_FILE ".md" = false := by decide
      rw [hmf] at hend
      exact Bool.noConfusion hend
    rw [hfsd]
    unfold fsWrite
    rw [if_neg hne, cleanup_keep_current _ hfetched]
    exact hc1

set_option maxHeartbeats 4000000 in
/-- Witness for C4: with one URL fetched successfully, the manifest entry
for `overview.md` carries the digest of the stored file content. -/
theorem fetch_docs_manifest_spec_witness :
    ∃ c, (fetch_docs hashW renderW outcomeW
        ["https://platform.claude.com/docs/en/agent-sdk/overview"] []
        (fun _ => none)).fs "overview.md" = some c ∧
      (ManifestEntry.mk "https://platform.claude.com/docs/en/agent-sdk/overview"
        (hashW "doc body")).hash = hashW c :=
  (fetch_docs_manifest_spec hashW renderW outcomeW
      ["https://platform.claude.com/docs/en/agent-sdk/overview"] []
      (fun _ => none)).2 "overview.md"
    (ManifestEntry.mk "https://platform.claude.com/docs/en/agent-sdk/overview"
      (hashW "doc body"))
    (by decide)

/-- Witness for C5 at a concrete filesystem: the file kept in the current
set survives cleanup and the dropped one is deleted. -/
theorem cleanup_old_files_spec_witness :
    ("kept.md" ∈ ["kept.md"] ∧
      cleanup_old_files ["kept.md"] ["kept.md", "old.md"]
        (fun _ => some "body") "kept.md" = (fun _ => some "body") "kept.md") ∧
    cleanup_old_files ["kept.md"] ["kept.md", "old.md"]
        (fun _ => some "body") "old.md" = none :=
  ⟨⟨by decide,
    (cleanup_old_files_spec ["kept.md"] ["kept.md", "old.md"]
      (fun _ => some "body") "kept.md").2 (by decide)⟩,
   by
    rw [(cleanup_old_files_spec ["kept.md"] ["kept.md", "old.md"]
      (fun _ => some "body") "old.md").1]
    rw [if_pos (by decide)]⟩

end FetchPy

